import Mathlib

/-!
Verification of the study-agent orchestration core: a shallow embedding of
the answer-protection middleware, the feedback node (suspend/resume), the
prefetch cache, the reflection gate, question finalization, the planner
error path, and the progressive hint policy, together with theorems about
their behaviour.
-/

namespace StudyAgent

/-! Text primitives modelling the JavaScript string operations used by the
source (toLowerCase, includes, indexOf, slice, split, trim, parseInt). -/

def jsIsSpace (c : Char) : Bool :=
  c = ' ' || c = '\t' || c = '\n' || c = '\r' || c = '\x0b' || c = '\x0c'

def lowerChars (s : List Char) : List Char :=
  s.map Char.toLower

def strLower (s : String) : String :=
  ⟨lowerChars s.data⟩

/-- Index of the first occurrence of pat in s, as in JavaScript indexOf. -/
def firstIdxOf? (pat : List Char) : List Char → Option Nat
  | [] => if pat.isEmpty then some 0 else none
  | c :: t => if pat.isPrefixOf (c :: t) then some 0 else (firstIdxOf? pat t).map (· + 1)

def containsCL (s pat : List Char) : Bool :=
  (firstIdxOf? pat s).isSome

def containsStr (s pat : String) : Bool :=
  containsCL s.data pat.data

/-- Slice of a character list between byte positions a and b, as in
JavaScript slice(a, b) for 0 ≤ a ≤ b. -/
def sliceCL (s : List Char) (a b : Nat) : List Char :=
  (s.drop a).take (b - a)

/-! Answer-protection middleware (src/agent/src/middleware/index.ts). -/

structure GuardMcq where
  question : String
  options : List String
  correctAnswer : Int
  userSelectedAnswer : Option Int := none
deriving Repr, DecidableEq

/-- Lookup options[i] for a JavaScript number index: undefined when out of
range or negative. -/
def getOptionAt? (xs : List String) (i : Int) : Option String :=
  if i < 0 then none else xs[i.toNat]?

def disclosureVerbs : List String := ["choose", "pick", "select"]

def disclosureTargets : List String := ["a", "b", "c", "d", "0", "1", "2", "3"]

/-- The finite alternation of literal strings matched (case-insensitively)
by the five direct-disclosure regular expressions in checkForAnswerReveal.
Each regex is a finite alternation of literals, unfolded here. -/
def revealPatterns : List String :=
  ["the answer is", "the correct answer is",
   "the right choice is", "the right option is"] ++
  (disclosureVerbs.flatMap fun v => disclosureTargets.flatMap fun t =>
    ["you should " ++ v ++ " option " ++ t, "you should " ++ v ++ " " ++ t]) ++
  (["a", "b", "c", "d"].map fun l => "option " ++ l ++ " is correct") ++
  (["a", "b", "c", "d"].map fun l => "the correct option is " ++ l)

/-- True when some direct-disclosure pattern occurs in the content
(case-insensitively); models the revealPatterns loop. -/
def revealPatternHit (content : String) : Bool :=
  revealPatterns.any fun p => containsStr (strLower content) p

/-- True when the content contains the literal correct option text and the
50-character window around its first occurrence contains the word answer,
correct, or right choice; models the proximity check. -/
def proximityHit (content : String) (mcq : GuardMcq) : Bool :=
  match getOptionAt? mcq.options mcq.correctAnswer with
  | none => false
  | some opt =>
    if opt = "" then false
    else
      let lower := lowerChars content.data
      let lopt := lowerChars opt.data
      match firstIdxOf? lopt lower with
      | none => false
      | some i =>
        let surrounding := sliceCL lower (i - 50) (i + lopt.length + 50)
        containsCL surrounding "answer".data || containsCL surrounding "correct".data ||
          containsCL surrounding "right choice".data

/-- Check if a response reveals the quiz answer (checkForAnswerReveal). -/
def checkForAnswerReveal (content : String) (mcq : GuardMcq) : Bool :=
  revealPatternHit content || proximityHit content mcq

inductive Role
  | system
  | user
  | assistant
deriving DecidableEq, Repr

structure ChatMsg where
  role : Role
  content : String
deriving DecidableEq, Repr

/-- The fixed safe redirect message substituted by the guardrail. -/
def safeRedirectMessage : String :=
  "I want to help you learn this concept without giving away the answer. " ++
  "Let me explain the underlying principle instead. " ++
  "Think about what the question is really asking and what concepts it\x27s testing. " ++
  "Would you like me to break down the key idea in a different way?"

structure StudyBuddyContext where
  threadId : String
  currentMcq : Option GuardMcq
  attemptCount : Nat := 0
deriving Repr, DecidableEq

/-- The afterModel hook of educationalGuardrailsMiddleware: none models the
undefined return (response passes unchanged); some models a replaced
message list. -/
def educationalGuardrailsAfterModel (msgs : List ChatMsg) (ctx : StudyBuddyContext) :
    Option (List ChatMsg) :=
  match msgs.getLast? with
  | none => none
  | some last =>
    if last.role ≠ Role.assistant then none
    else
      match ctx.currentMcq with
      | none => none
      | some mcq =>
        if checkForAnswerReveal last.content mcq then
          some (msgs.dropLast ++ [{ role := Role.assistant, content := safeRedirectMessage }])
        else none

/-! Progressive hint policy (src/agent/src/prompts/dynamic.ts). -/

def questionStartWords : List String :=
  ["what", "which", "how", "why", "when", "where", "who", "is", "are", "does", "do",
   "can", "could", "would", "should"]

/-- Number of characters removed by the anchored question-word pattern: the
first listed word matching a case-insensitive start of the string and
followed by whitespace, together with the greedy whitespace run. -/
def questionWordCut (s : List Char) : Option Nat :=
  questionStartWords.findSome? fun w =>
    let n := w.length
    if w.data.isPrefixOf (lowerChars s) &&
        (match (s.drop n).head? with
         | some c => jsIsSpace c
         | none => false) then
      some (n + ((s.drop n).takeWhile jsIsSpace).length)
    else none

def trimEnd (s : List Char) : List Char :=
  (s.reverse.dropWhile jsIsSpace).reverse

def trimCL (s : List Char) : List Char :=
  trimEnd (s.dropWhile jsIsSpace)

def wordsAux : List Char → List Char → List (List Char)
  | [], acc => if acc.isEmpty then [] else [acc.reverse]
  | c :: cs, acc =>
    if jsIsSpace c then
      if acc.isEmpty then wordsAux cs [] else acc.reverse :: wordsAux cs []
    else wordsAux cs (c :: acc)

/-- Words of a string, splitting at whitespace runs. -/
def wordsOf (s : List Char) : List (List Char) :=
  wordsAux s []

/-- Join a list of words with single spaces, as in JavaScript join. -/
def joinSp : List (List Char) → List Char
  | [] => []
  | [w] => w
  | w :: ws => w ++ ' ' :: joinSp ws

def isClauseCut (c : Char) : Bool :=
  c = ',' || c = '-' || c = '–' || c = '—'

/-- Cleaned question text: question start word removed, one trailing
question mark removed, then trimmed (extractKeyTerms, first part). -/
def cleanQuestion (q : List Char) : List Char :=
  let afterStart :=
    match questionWordCut q with
    | some k => q.drop k
    | none => q
  let noMark := if afterStart.getLast? = some '?' then afterStart.dropLast else afterStart
  trimCL noMark

def extractKeyTermsCL (q : List Char) : List Char :=
  let cleaned := cleanQuestion q
  let ws := wordsOf cleaned
  let firstPhrase := joinSp (ws.take (min 6 ws.length))
  let beforeCut := trimCL (firstPhrase.takeWhile fun c => !isClauseCut c)
  if beforeCut.isEmpty then cleaned.take 50 else beforeCut

/-- Extract key terms from a question for use in hints (extractKeyTerms). -/
def extractKeyTerms (question : String) : String :=
  ⟨extractKeyTermsCL question.data⟩

structure HintContext where
  question : String
  options : List String
  objectiveTitle : Option String
deriving Repr, DecidableEq

/-- JavaScript truthiness of an optional string: absent and empty are falsy. -/
def truthyTitle : Option String → Option String
  | some t => if t = "" then none else some t
  | none => none

def finalGenericHint : String :=
  "Final hint: The correct answer is the most specific and directly relevant option. " ++
  "Avoid options that are too broad or unrelated."

/-- Progressive hint based on attempt count and question context
(getProgressiveHint); a pure function, no model call. -/
def getProgressiveHint (baseHint : String) (attemptCount : Nat) (context : Option HintContext) :
    String :=
  if attemptCount ≤ 1 then baseHint
  else if attemptCount = 2 then
    match context with
    | some c =>
      "Pay close attention to \"" ++ extractKeyTerms c.question ++
        "\" in the question. Consider what each option implies about this concept."
    | none => "Re-read the question carefully and consider what distinguishes each option."
  else if attemptCount = 3 then
    match context with
    | some c =>
      match truthyTitle c.objectiveTitle with
      | some t =>
        "This question tests \"" ++ t ++
          "\". Try eliminating options that don\x27t directly relate to this learning objective."
      | none =>
        "Focus on \"" ++ extractKeyTerms c.question ++
          "\". Which option most directly addresses this core concept?"
    | none =>
      "Focus on the main concept being tested. Try to eliminate clearly incorrect options first."
  else if attemptCount = 4 then
    match context with
    | some c =>
      "You\x27ve tried several times. Look carefully at the options - some may sound correct " ++
        "but don\x27t match what the question is specifically asking about \"" ++
        extractKeyTerms c.question ++ "\"."
    | none =>
      "Take a step back. Re-read the question from the beginning and focus on exactly " ++
        "what it\x27s asking."
  else
    match context with
    | some c =>
      match truthyTitle c.objectiveTitle with
      | some t =>
        "Final hint: The answer directly demonstrates \"" ++ t ++
          "\". Look for the option that shows a concrete benefit or outcome, " ++
          "not just a general statement."
      | none => finalGenericHint
    | none => finalGenericHint

/-- Word counter used to reason about wordsOf: the Bool records whether the
scan is currently inside a word. -/
def countWords : List Char → Bool → Nat
  | [], _ => 0
  | c :: cs, inWord =>
    if jsIsSpace c then countWords cs false
    else (if inWord then 0 else 1) + countWords cs true

/-! Workflow data model (src/agent/src/state.ts, src/agent/src/schemas). -/

inductive Phase
  | upload
  | planning
  | approval
  | quiz
  | summary
deriving DecidableEq, Repr

inductive Difficulty
  | easy
  | medium
  | hard
deriving DecidableEq, Repr

structure LearnObj where
  id : String
  title : String
  description : String
  difficulty : Difficulty
deriving DecidableEq, Repr

structure StMCQ where
  id : String
  objectiveId : String
  question : String
  options : List String
  correctAnswer : Int
  hint : String
  explanation : String
deriving DecidableEq, Repr

abbrev UAMap := String → Option Int

abbrev ACMap := String → Option Nat

structure LearnState where
  pdfPath : Option String
  pdfContent : String
  learningObjectives : List LearnObj
  planApproved : Bool
  currentObjectiveIdx : Nat
  mcqs : List StMCQ
  currentMcqIdx : Nat
  totalExpectedMcqs : Nat
  prefetchedMcqs : List StMCQ
  prefetchObjectiveIdx : Int
  userAnswers : UAMap
  correctAnswers : Nat
  attemptCounts : ACMap
  sessionComplete : Bool
  error : Option String
  currentPhase : Phase

/-! Prefetch cache (src/agent/src/utils/prefetchCache.ts): a process-wide
map from session key to a single pending entry; the promise is modelled by
its eventual outcome. -/

structure PrefetchEntry where
  objectiveIdx : Nat
  result : Except String (List StMCQ)

abbrev PCMap := String → Option PrefetchEntry

def pcGet (m : PCMap) (k : String) : Option PrefetchEntry := m k

def pcSet (m : PCMap) (k : String) (e : PrefetchEntry) : PCMap :=
  fun q => if q = k then some e else m q

def pcDelete (m : PCMap) (k : String) : PCMap :=
  fun q => if q = k then none else m q

def pcEmpty : PCMap := fun _ => none

/-- Session key for the prefetch cache: the first learning objective id,
falling back to the string default when absent or empty (getSessionKey). -/
def getSessionKey (learningObjectives : List LearnObj) : String :=
  match learningObjectives.head? with
  | some o => if o.id = "" then "default" else o.id
  | none => "default"

/-- Resolve prefetched questions for the next objective (resolvePrefetch):
mismatching entries are ignored and left in place, a matching entry is
awaited and deleted, a failed entry is deleted and ignored. -/
def resolvePrefetch (cache : PCMap) (sessionKey : String) (nextObjectiveIdx : Nat) :
    Option (List StMCQ × Nat) × PCMap :=
  match pcGet cache sessionKey with
  | none => (none, cache)
  | some cached =>
    if cached.objectiveIdx ≠ nextObjectiveIdx then (none, cache)
    else
      match cached.result with
      | .ok mcqs => (some (mcqs, nextObjectiveIdx), pcDelete cache sessionKey)
      | .error _ => (none, pcDelete cache sessionKey)

/-! Resume value coercion (feedback node and server endpoint). -/

def digitsVal (ds : List Char) : Nat :=
  ds.foldl (fun a c => a * 10 + (c.toNat - '0'.toNat)) 0

/-- Base-10 parseInt as in JavaScript: skip leading whitespace, optional
sign, longest digit run; none models NaN. -/
def parseIntJs (s : String) : Option Int :=
  let t := s.data.dropWhile jsIsSpace
  let signed : Int × List Char :=
    match t with
    | '+' :: r => (1, r)
    | '-' :: r => (-1, r)
    | _ => (1, t)
  let ds := signed.2.takeWhile Char.isDigit
  if ds.isEmpty then none else some (signed.1 * (digitsVal ds : Int))

inductive ResumeVal
  | num (n : Int)
  | str (s : String)
deriving DecidableEq, Repr

/-- The feedback node coerces non-number resume values with parseInt;
none models NaN, which compares unequal to every answer index. -/
def coerceResume : ResumeVal → Option Int
  | .num n => some n
  | .str s => parseIntJs s

/-- Server-side conversion of numeric resume values to strings before
resuming (the invoke endpoint safeResumeValue). -/
def safeResumeValue : ResumeVal → ResumeVal
  | .num n => .str (toString n)
  | v => v

/-! Feedback node (the answer/feedback loop with interrupt). -/

structure AnswerPayload where
  questionId : String
  objectiveId : String
  question : String
  options : List String
  correctAnswer : Int
  hint : String
  explanation : String
  currentIndex : Nat
  totalQuestions : Nat
  attemptCount : Nat
deriving DecidableEq, Repr

structure FeedbackUpdate where
  currentObjectiveIdx : Option Nat := none
  currentMcqIdx : Option Nat := none
  currentPhase : Option Phase := none
  userAnswers : Option UAMap := none
  correctAnswers : Option Nat := none
  attemptCounts : Option ACMap := none
  prefetchedMcqs : Option (List StMCQ) := none
  prefetchObjectiveIdx : Option Int := none
  error : Option (Option String) := none

inductive FeedbackResult
  | update (u : FeedbackUpdate)
  | suspend (payload : AnswerPayload)

/-- Merge a partial feedback update into the state following the channel
reducers of state.ts: scalar channels overwrite, the userAnswers and
attemptCounts channels merge with the update winning per key. -/
def applyFeedbackUpdate (st : LearnState) (u : FeedbackUpdate) : LearnState :=
  { st with
    currentObjectiveIdx := u.currentObjectiveIdx.getD st.currentObjectiveIdx,
    currentMcqIdx := u.currentMcqIdx.getD st.currentMcqIdx,
    currentPhase := u.currentPhase.getD st.currentPhase,
    userAnswers :=
      match u.userAnswers with
      | some m => fun k => match m k with
        | some v => some v
        | none => st.userAnswers k
      | none => st.userAnswers,
    correctAnswers := u.correctAnswers.getD st.correctAnswers,
    attemptCounts :=
      match u.attemptCounts with
      | some m => fun k => match m k with
        | some v => some v
        | none => st.attemptCounts k
      | none => st.attemptCounts,
    prefetchedMcqs := u.prefetchedMcqs.getD st.prefetchedMcqs,
    prefetchObjectiveIdx := u.prefetchObjectiveIdx.getD st.prefetchObjectiveIdx,
    error := u.error.getD st.error }

/-- True when a stored answer exists for this question and equals the
correct answer. -/
def existingAnswerCorrect (st : LearnState) (mcq : StMCQ) : Bool :=
  match st.userAnswers mcq.id with
  | some a => a == mcq.correctAnswer
  | none => false

def isLastQuestionOfObjective (mcqs : List StMCQ) (currentMcqIdx : Nat) (obj : LearnObj) : Bool :=
  decide (currentMcqIdx + 1 ≥ mcqs.length) ||
    (match mcqs[currentMcqIdx + 1]? with
     | some m => m.objectiveId != obj.id
     | none => true)

/-- The interrupt payload built by the feedback node before suspending for
an answer submission. -/
def answerPayload (st : LearnState) (mcq : StMCQ) : AnswerPayload :=
  let calculatedTotalMcqs := st.learningObjectives.length * 3
  let currentAttemptCount := (st.attemptCounts mcq.id).getD 0 + 1
  let dynamicHint := getProgressiveHint mcq.hint currentAttemptCount
      (some { question := mcq.question, options := mcq.options,
              objectiveTitle := (st.learningObjectives[st.currentObjectiveIdx]?).map LearnObj.title })
  { questionId := mcq.id,
    objectiveId := mcq.objectiveId,
    question := mcq.question,
    options := mcq.options,
    correctAnswer := mcq.correctAnswer,
    hint := dynamicHint,
    explanation := mcq.explanation,
    currentIndex := st.currentMcqIdx,
    totalQuestions := if calculatedTotalMcqs ≠ 0 then calculatedTotalMcqs else st.mcqs.length,
    attemptCount := currentAttemptCount }

/-- Advance past a question whose stored answer is already correct. -/
def feedbackAdvanceAnswered (st : LearnState) (cache : PCMap) : FeedbackUpdate × PCMap :=
  match st.learningObjectives[st.currentObjectiveIdx]? with
  | some obj =>
    if isLastQuestionOfObjective st.mcqs st.currentMcqIdx obj &&
        decide (st.currentObjectiveIdx + 1 < st.learningObjectives.length) then
      let nextIdx := st.currentObjectiveIdx + 1
      let pr := resolvePrefetch cache (getSessionKey st.learningObjectives) nextIdx
      ({ currentMcqIdx := some (st.currentMcqIdx + 1),
         currentObjectiveIdx := some nextIdx,
         prefetchedMcqs := pr.1.map Prod.fst,
         prefetchObjectiveIdx := pr.1.map fun r => (r.2 : Int) }, pr.2)
    else ({ currentMcqIdx := some (st.currentMcqIdx + 1) }, cache)
  | none => ({ currentMcqIdx := some (st.currentMcqIdx + 1) }, cache)

/-- State update for a correct resume: store the answer, bump the correct
counter, advance, merging a matching prefetch when the objective ends. -/
def feedbackCorrect (st : LearnState) (cache : PCMap) (mcq : StMCQ) (userAnswer : Int) :
    FeedbackUpdate × PCMap :=
  let newUserAnswers : UAMap := fun k => if k = mcq.id then some userAnswer else st.userAnswers k
  match st.learningObjectives[st.currentObjectiveIdx]? with
  | some obj =>
    if isLastQuestionOfObjective st.mcqs st.currentMcqIdx obj &&
        decide (st.currentObjectiveIdx + 1 < st.learningObjectives.length) then
      let nextIdx := st.currentObjectiveIdx + 1
      let pr := resolvePrefetch cache (getSessionKey st.learningObjectives) nextIdx
      ({ userAnswers := some newUserAnswers,
         correctAnswers := some (st.correctAnswers + 1),
         currentMcqIdx := some (st.currentMcqIdx + 1),
         currentObjectiveIdx := some nextIdx,
         prefetchedMcqs := pr.1.map Prod.fst,
         prefetchObjectiveIdx := pr.1.map fun r => (r.2 : Int) }, pr.2)
    else
      ({ userAnswers := some newUserAnswers,
         correctAnswers := some (st.correctAnswers + 1),
         currentMcqIdx := some (st.currentMcqIdx + 1) }, cache)
  | none =>
    ({ userAnswers := some newUserAnswers,
       correctAnswers := some (st.correctAnswers + 1),
       currentMcqIdx := some (st.currentMcqIdx + 1) }, cache)

/-- State update for an incorrect resume: the answer is not stored, only
the attempt count for this question is incremented. -/
def feedbackIncorrect (st : LearnState) (mcq : StMCQ) : FeedbackUpdate :=
  let currentAttemptCount := (st.attemptCounts mcq.id).getD 0 + 1
  { attemptCounts := some fun k => if k = mcq.id then some currentAttemptCount else none }

/-- Feedback node: none for resume models the first execution reaching the
interrupt (the node suspends); some models re-entry with the resume value
bound at the interrupt point. -/
def feedbackNode (st : LearnState) (cache : PCMap) (resume : Option ResumeVal) :
    FeedbackResult × PCMap :=
  if st.mcqs.length = 0 then
    (.update { error := some (some "No questions available."), currentPhase := some .upload },
      cache)
  else
    match st.mcqs[st.currentMcqIdx]? with
    | none =>
      if st.currentObjectiveIdx + 1 < st.learningObjectives.length then
        let nextIdx := st.currentObjectiveIdx + 1
        let pr := resolvePrefetch cache (getSessionKey st.learningObjectives) nextIdx
        (.update { currentObjectiveIdx := some nextIdx,
                   currentPhase := some .quiz,
                   prefetchedMcqs := pr.1.map Prod.fst,
                   prefetchObjectiveIdx := pr.1.map fun r => (r.2 : Int) }, pr.2)
      else (.update { currentPhase := some .quiz }, cache)
    | some mcq =>
      if existingAnswerCorrect st mcq then
        let adv := feedbackAdvanceAnswered st cache
        (.update adv.1, adv.2)
      else
        match resume with
        | none => (.suspend (answerPayload st mcq), cache)
        | some v =>
          match coerceResume v with
          | some n =>
            if n = mcq.correctAnswer then
              let cor := feedbackCorrect st cache mcq n
              (.update cor.1, cor.2)
            else (.update (feedbackIncorrect st mcq), cache)
          | none => (.update (feedbackIncorrect st mcq), cache)

/-! Quiz generator node (src/agent/src/nodes/quizGenerator.ts), with the
generation call and the fired prefetch promise modelled by their
outcomes. -/

structure QuizGenUpdate where
  mcqs : Option (List StMCQ) := none
  currentMcqIdx : Option Nat := none
  totalExpectedMcqs : Option Nat := none
  currentPhase : Option Phase := none
  error : Option (Option String) := none
  prefetchedMcqs : Option (List StMCQ) := none
  prefetchObjectiveIdx : Option Int := none

def quizGeneratorNode (st : LearnState) (genOutcome : Except String (List StMCQ))
    (nextPrefetch : Except String (List StMCQ)) (cache : PCMap) : QuizGenUpdate × PCMap :=
  if st.learningObjectives.length = 0 then
    ({ error := some (some "No learning objectives available. Please start over."),
       currentPhase := some .upload }, cache)
  else
    match st.learningObjectives[st.currentObjectiveIdx]? with
    | none => ({ currentPhase := some .summary }, cache)
    | some _ =>
      let totalExpectedMcqs := st.learningObjectives.length * 3
      let usePrefetch := st.prefetchObjectiveIdx == (st.currentObjectiveIdx : Int) &&
        decide (st.prefetchedMcqs.length > 0)
      match (if usePrefetch then Except.ok st.prefetchedMcqs else genOutcome) with
      | .error e =>
        ({ error := some (some ("Failed to generate questions: " ++ e)),
           currentPhase := some .upload }, cache)
      | .ok questionsForCurrent =>
        let cache' :=
          if st.currentObjectiveIdx + 1 < st.learningObjectives.length then
            pcSet cache (getSessionKey st.learningObjectives)
              { objectiveIdx := st.currentObjectiveIdx + 1, result := nextPrefetch }
          else cache
        ({ mcqs := some (st.mcqs ++ questionsForCurrent),
           currentMcqIdx := some st.mcqs.length,
           totalExpectedMcqs := some totalExpectedMcqs,
           currentPhase := some .quiz,
           error := some none,
           prefetchedMcqs := some [],
           prefetchObjectiveIdx := some (-1) }, cache')

/-! Planner node (src/agent/src/nodes/planner.ts). -/

structure PlanOut where
  objectives : List LearnObj
  overallDifficulty : String
  estimatedDuration : String

structure PlannerUpdate where
  learningObjectives : Option (List LearnObj) := none
  currentPhase : Option Phase := none
  error : Option (Option String) := none

def assignIdsAux : Nat → List LearnObj → List LearnObj
  | _, [] => []
  | i, o :: rest => { o with id := "obj-" ++ toString (i + 1) } :: assignIdsAux (i + 1) rest

/-- Sequential objective ids obj-1..n assigned by the planner. -/
def assignObjectiveIds (objectives : List LearnObj) : List LearnObj :=
  assignIdsAux 0 objectives

/-- Planner node with the model call represented by its outcome; the catch
branch returns the default NodeResponse error update, which resets the
phase to upload. -/
def plannerNode (st : LearnState) (genResult : Except String PlanOut) : PlannerUpdate :=
  if st.pdfContent = "" then
    { error := some (some "No PDF content available. Please upload a PDF first."),
      currentPhase := some .upload }
  else
    match genResult with
    | .ok plan =>
      { learningObjectives := some (assignObjectiveIds plan.objectives),
        currentPhase := some .approval,
        error := some none }
    | .error msg =>
      { error := some (some ("Failed to generate learning plan: " ++ msg)),
        currentPhase := some .upload }

def applyPlannerUpdate (st : LearnState) (u : PlannerUpdate) : LearnState :=
  { st with
    learningObjectives := u.learningObjectives.getD st.learningObjectives,
    currentPhase := u.currentPhase.getD st.currentPhase,
    error := u.error.getD st.error }

/-! Question finalization (finalizeQuestions in the quiz generation path). -/

structure RawQ where
  question : String
  options : List String
  correctAnswer : Int
  hint : String
  explanation : String
deriving DecidableEq, Repr

def finalizeAux (objective : LearnObj) : Nat → List RawQ → List StMCQ
  | _, [] => []
  | i, q :: rest =>
    { id := objective.id ++ "-q" ++ toString (i + 1),
      objectiveId := objective.id,
      question := q.question,
      options := q.options,
      correctAnswer := if q.correctAnswer < 0 || q.correctAnswer > 3 then 0 else q.correctAnswer,
      hint := q.hint,
      explanation := q.explanation } :: finalizeAux objective (i + 1) rest

/-- Add ids and validate MCQs (finalizeQuestions): ids are assigned per
index and an out-of-range correct answer is replaced by 0 in place. -/
def finalizeQuestions (questions : List RawQ) (objective : LearnObj) : List StMCQ :=
  finalizeAux objective 0 questions

/-! Reflection gate (src/agent/src/services/reflection/ReflectionService.ts),
with the critique and refine model calls represented by oracles indexed by
iteration, and ghost counters recording how many calls were made. -/

structure Critique where
  hasErrors : Bool
  isEducationallySound : Bool
  clarityScore : Int
  issues : List String
  suggestions : List String
  needsRefinement : Bool
deriving Repr, DecidableEq

structure RawMCQBatch where
  objectiveId : String
  questions : List RawQ
deriving Repr, DecidableEq

structure RefinedBatch where
  questions : List RawQ
  refinementSummary : String
deriving Repr, DecidableEq

structure ReflectionOptions where
  enabled : Bool
  maxIterations : Nat
  critiqueThreshold : Int
deriving Repr, DecidableEq

def defaultReflectionOptions : ReflectionOptions :=
  { enabled := true, maxIterations := 2, critiqueThreshold := 7 }

def critiqueNeedsRefinement (c : Critique) (threshold : Int) : Bool :=
  c.needsRefinement || c.hasErrors || decide (c.clarityScore < threshold)

structure LoopOut where
  output : RawMCQBatch
  iterations : Nat
  lastCritique : Option Critique
  lastSummary : Option String
  critiqueCallCount : Nat
  refineCallCount : Nat
deriving Repr, DecidableEq

/-- The critique-and-refine loop of withReflection, with fuel equal to the
remaining iterations; each pass critiques once and, when the critique
demands it, refines once and replaces the questions wholesale. -/
def reflectLoop (threshold : Int) (critiqueAt : Nat → Critique) (refineAt : Nat → RefinedBatch) :
    Nat → RawMCQBatch → Nat → Option Critique → Option String → LoopOut
  | 0, cur, done, lastC, lastS =>
    { output := cur, iterations := done, lastCritique := lastC, lastSummary := lastS,
      critiqueCallCount := 0, refineCallCount := 0 }
  | fuel + 1, cur, done, _, lastS =>
    let c := critiqueAt done
    if critiqueNeedsRefinement c threshold then
      let r := refineAt done
      let out := reflectLoop threshold critiqueAt refineAt fuel
        { cur with questions := r.questions } (done + 1) (some c) (some r.refinementSummary)
      { out with critiqueCallCount := out.critiqueCallCount + 1,
                 refineCallCount := out.refineCallCount + 1 }
    else
      { output := cur, iterations := done + 1, lastCritique := some c, lastSummary := lastS,
        critiqueCallCount := 1, refineCallCount := 0 }

structure ReflectionResult where
  output : RawMCQBatch
  wasRefined : Bool
  iterations : Nat
  critique : Option Critique
  refinementSummary : Option String
  critiqueCallCount : Nat
  refineCallCount : Nat
deriving Repr, DecidableEq

/-- Apply the reflection pattern to a generated batch
(ReflectionService.withReflection). -/
def withReflection (opts : ReflectionOptions) (genOutput : RawMCQBatch)
    (critiqueAt : Nat → Critique) (refineAt : Nat → RefinedBatch) : ReflectionResult :=
  if !opts.enabled then
    { output := genOutput, wasRefined := false, iterations := 0, critique := none,
      refinementSummary := none, critiqueCallCount := 0, refineCallCount := 0 }
  else
    let out := reflectLoop opts.critiqueThreshold critiqueAt refineAt
      opts.maxIterations genOutput 0 none none
    { output := out.output,
      wasRefined := decide (out.iterations > 0) && out.lastSummary.isSome,
      iterations := out.iterations,
      critique := out.lastCritique,
      refinementSummary := out.lastSummary,
      critiqueCallCount := out.critiqueCallCount,
      refineCallCount := out.refineCallCount }

/-! Invariant machinery for the stored-answers claim. -/

/-- Every stored user answer equals the correct answer of the question
carrying that id. -/
def StoredAnswersCorrect (st : LearnState) : Prop :=
  ∀ m ∈ st.mcqs, ∀ v, st.userAnswers m.id = some v → v = m.correctAnswer

/-- Question ids identify questions uniquely within the list. -/
def UniqueIds (mcqs : List StMCQ) : Prop :=
  ∀ m ∈ mcqs, ∀ m' ∈ mcqs, m.id = m'.id → m = m'

/-- States reachable through the feedback node from a session with no
stored answers, under arbitrary resume values and cache contents. -/
inductive FeedbackReach : LearnState → Prop
  | init (st : LearnState) (h : ∀ k, st.userAnswers k = none) : FeedbackReach st
  | step (st : LearnState) (cache : PCMap) (resume : Option ResumeVal)
      (u : FeedbackUpdate) (cache' : PCMap)
      (hreach : FeedbackReach st)
      (hrun : feedbackNode st cache resume = (.update u, cache')) :
      FeedbackReach (applyFeedbackUpdate st u)

/-! Concrete inputs used by the witness theorems. -/

def wGuardMcq : GuardMcq :=
  { question := "What is the capital of France?",
    options := ["London", "Paris", "Rome", "Berlin"],
    correctAnswer := 1 }

def wGuardCtx : StudyBuddyContext :=
  { threadId := "thread-1", currentMcq := some wGuardMcq }

def wGuardMsgsHit : List ChatMsg :=
  [{ role := .user, content := "help me" },
   { role := .assistant, content := "The answer is Paris." }]

def wGuardMsgsClean : List ChatMsg :=
  [{ role := .user, content := "help me" },
   { role := .assistant, content := "Think about European geography." }]

def wObj1 : LearnObj :=
  { id := "obj-1", title := "Recursion basics", description := "Understand recursion",
    difficulty := .easy }

def wMcq1 : StMCQ :=
  { id := "obj-1-q1", objectiveId := "obj-1", question := "What is recursion?",
    options := ["A loop", "Self reference", "A variable", "A class"],
    correctAnswer := 1, hint := "Think about self reference.",
    explanation := "Recursion is when a function calls itself." }

def wState1 : LearnState :=
  { pdfPath := some "doc.pdf", pdfContent := "content",
    learningObjectives := [wObj1], planApproved := true,
    currentObjectiveIdx := 0, mcqs := [wMcq1], currentMcqIdx := 0,
    totalExpectedMcqs := 3, prefetchedMcqs := [], prefetchObjectiveIdx := -1,
    userAnswers := fun _ => none, correctAnswers := 0,
    attemptCounts := fun _ => none, sessionComplete := false,
    error := none, currentPhase := .quiz }

def wPlanState : LearnState :=
  { wState1 with
    pdfContent := "Document text with enough words",
    currentPhase := .planning, learningObjectives := [], mcqs := [] }

def wRawObjA : LearnObj :=
  { id := "ignored", title := "T1", description := "D1", difficulty := .easy }

def wRawObjB : LearnObj :=
  { id := "other", title := "T2", description := "D2", difficulty := .hard }

def wEntryA : PrefetchEntry := { objectiveIdx := 1, result := .ok [wMcq1] }

def wEntryB : PrefetchEntry := { objectiveIdx := 2, result := .error "boom" }

def wRawQ (s : String) : RawQ :=
  { question := s, options := ["o1", "o2", "o3", "o4"], correctAnswer := 0,
    hint := "h", explanation := "e" }

def wGenBatch : RawMCQBatch :=
  { objectiveId := "obj-1", questions := [wRawQ "q1", wRawQ "q2", wRawQ "q3"] }

def wCritiqueNeeds : Critique :=
  { hasErrors := false, isEducationallySound := true, clarityScore := 8,
    issues := ["overlap"], suggestions := ["merge"], needsRefinement := true }

def wCritiquePass : Critique :=
  { hasErrors := false, isEducationallySound := true, clarityScore := 9,
    issues := [], suggestions := [], needsRefinement := false }

def wCritiqueAt : Nat → Critique :=
  fun i => if i = 0 then wCritiqueNeeds else wCritiquePass

def wRefineAt : Nat → RefinedBatch :=
  fun _ => { questions := [wRawQ "q1r", wRawQ "q2r"],
             refinementSummary := "merged overlapping questions" }

def wBadRawQ : RawQ :=
  { question := "Broken?", options := ["x", "y", "z"], correctAnswer := 7,
    hint := "h", explanation := "e" }

/-! Theorems. -/

/-- C1: for every active MCQ context, the post-call guardrail replaces an
assistant response with the fixed safe-redirect message whenever the
response matches a direct-disclosure pattern or contains the literal
correct option text with answer, correct, or right choice in the
50-character window around it, and returns the response unchanged when
neither the pattern check nor the proximity check fires. -/
theorem answer_guardrail_replaces_or_passes
    (msgs : List ChatMsg) (ctx : StudyBuddyContext) (mcq : GuardMcq) (last : ChatMsg)
    (hmcq : ctx.currentMcq = some mcq)
    (hlast : msgs.getLast? = some last)
    (hrole : last.role = Role.assistant) :
    ((revealPatternHit last.content = true ∨ proximityHit last.content mcq = true) →
      educationalGuardrailsAfterModel msgs ctx =
        some (msgs.dropLast ++ [{ role := Role.assistant, content := safeRedirectMessage }])) ∧
    (revealPatternHit last.content = false → proximityHit last.content mcq = false →
      educationalGuardrailsAfterModel msgs ctx = none) := by
  constructor
  · intro h
    unfold educationalGuardrailsAfterModel
    rw [hlast, hmcq]
    have hcheck : checkForAnswerReveal last.content mcq = true := by
      unfold checkForAnswerReveal
      rcases h with h | h <;> simp [h]
    simp [hrole, hcheck]
  · intro h1 h2
    unfold educationalGuardrailsAfterModel
    rw [hlast, hmcq]
    have hcheck : checkForAnswerReveal last.content mcq = false := by
      unfold checkForAnswerReveal
      simp [h1, h2]
    simp [hrole, hcheck]

/-- Witness for C1: a response spelling out the answer is replaced by the
safe redirect, and a clean response passes unchanged. -/
theorem answer_guardrail_replaces_or_passes_witness :
    educationalGuardrailsAfterModel wGuardMsgsHit wGuardCtx =
      some (wGuardMsgsHit.dropLast ++
        [{ role := Role.assistant, content := safeRedirectMessage }]) ∧
    educationalGuardrailsAfterModel wGuardMsgsClean wGuardCtx = none :=
  ⟨(answer_guardrail_replaces_or_passes wGuardMsgsHit wGuardCtx wGuardMcq
      { role := .assistant, content := "The answer is Paris." } rfl rfl rfl).1
      (Or.inl (by decide)),
   (answer_guardrail_replaces_or_passes wGuardMsgsClean wGuardCtx wGuardMcq
      { role := .assistant, content := "Think about European geography." } rfl rfl rfl).2
      (by decide) (by decide)⟩

/-- C5: the planner assigns ids obj-1..n, so the prefetch session key of
every planner-produced objectives list is the string obj-1; any two such
sessions share one slot of the process-wide cache, and one session can
overwrite or delete the entry of another. -/
theorem session_key_collision :
    (∀ raw : List LearnObj, raw ≠ [] → getSessionKey (assignObjectiveIds raw) = "obj-1") ∧
    (∀ rawA rawB : List LearnObj, rawA ≠ [] → rawB ≠ [] →
      getSessionKey (assignObjectiveIds rawA) = getSessionKey (assignObjectiveIds rawB)) ∧
    (∀ (m : PCMap) (e1 e2 : PrefetchEntry) (rawA rawB : List LearnObj),
      rawA ≠ [] → rawB ≠ [] →
      pcGet (pcSet (pcSet m (getSessionKey (assignObjectiveIds rawA)) e1)
          (getSessionKey (assignObjectiveIds rawB)) e2)
        (getSessionKey (assignObjectiveIds rawA)) = some e2 ∧
      pcGet (pcDelete (pcSet m (getSessionKey (assignObjectiveIds rawA)) e1)
          (getSessionKey (assignObjectiveIds rawB)))
        (getSessionKey (assignObjectiveIds rawA)) = none) := by
  have hkey : ∀ raw : List LearnObj, raw ≠ [] → getSessionKey (assignObjectiveIds raw) = "obj-1" := by
    intro raw h
    match raw with
    | [] => exact absurd rfl h
    | o :: rest => rfl
  refine ⟨hkey, fun rawA rawB hA hB => (hkey rawA hA).trans (hkey rawB hB).symm, ?_⟩
  intro m e1 e2 rawA rawB hA hB
  rw [hkey rawA hA, hkey rawB hB]
  constructor
  · simp [pcGet, pcSet]
  · simp [pcGet, pcSet, pcDelete]

/-- Witness for C5: two concrete planner outputs map to the same key and
the second session overwrites the first session's entry. -/
theorem session_key_collision_witness :
    getSessionKey (assignObjectiveIds [wRawObjA]) = "obj-1" ∧
    pcGet (pcSet (pcSet pcEmpty (getSessionKey (assignObjectiveIds [wRawObjA])) wEntryA)
        (getSessionKey (assignObjectiveIds [wRawObjB, wRawObjA])) wEntryB)
      (getSessionKey (assignObjectiveIds [wRawObjA])) = some wEntryB :=
  ⟨session_key_collision.1 [wRawObjA] (by decide),
   (session_key_collision.2.2 pcEmpty wEntryA wEntryB [wRawObjA] [wRawObjB, wRawObjA]
      (by decide) (by decide)).1⟩

/-- C10 counterexample: entering the planner at phase planning with a
failing generation call sets the error message but moves the phase to
upload, so the phase is not left unchanged from the entry phase. -/
theorem planner_failure_phase_counterexample :
    wPlanState.currentPhase = Phase.planning ∧
    (applyPlannerUpdate wPlanState (plannerNode wPlanState (.error "model unavailable"))).error
      = some "Failed to generate learning plan: model unavailable" ∧
    (applyPlannerUpdate wPlanState
        (plannerNode wPlanState (.error "model unavailable"))).currentPhase = Phase.upload ∧
    (applyPlannerUpdate wPlanState
        (plannerNode wPlanState (.error "model unavailable"))).currentPhase
      ≠ wPlanState.currentPhase := by
  refine ⟨rfl, rfl, rfl, by decide⟩

/-- C10 amended: when the plan generation call fails, the planner sets the
error field to the human-readable failure message and resets the phase to
upload, the safe re-enterable phase, regardless of the entry phase. -/
theorem planner_failure_sets_error_and_upload
    (st : LearnState) (msg : String) (hpdf : st.pdfContent ≠ "") :
    plannerNode st (.error msg) =
      { learningObjectives := none,
        currentPhase := some Phase.upload,
        error := some (some ("Failed to generate learning plan: " ++ msg)) } ∧
    (applyPlannerUpdate st (plannerNode st (.error msg))).currentPhase = Phase.upload ∧
    (applyPlannerUpdate st (plannerNode st (.error msg))).error
      = some ("Failed to generate learning plan: " ++ msg) := by
  have h : plannerNode st (.error msg) =
      { learningObjectives := none,
        currentPhase := some Phase.upload,
        error := some (some ("Failed to generate learning plan: " ++ msg)) } := by
    unfold plannerNode
    simp [hpdf]
  exact ⟨h, by rw [h]; rfl, by rw [h]; rfl⟩

/-- Witness for the amended C10 theorem at a concrete failing state. -/
theorem planner_failure_sets_error_and_upload_witness :
    (applyPlannerUpdate wPlanState (plannerNode wPlanState (.error "boom"))).currentPhase
      = Phase.upload :=
  (planner_failure_sets_error_and_upload wPlanState "boom" (by decide)).2.1

/-- Finalized questions have their correct answer clamped to the range 0
to 3, for every start index of the id numbering. -/
theorem finalizeAux_correctAnswer_range (obj : LearnObj) :
    ∀ (qs : List RawQ) (n : Nat), ∀ m ∈ finalizeAux obj n qs,
      0 ≤ m.correctAnswer ∧ m.correctAnswer ≤ 3 := by
  intro qs
  induction qs with
  | nil => intro n m hm; simp [finalizeAux] at hm
  | cons q rest ih =>
    intro n m hm
    simp only [finalizeAux, List.mem_cons] at hm
    rcases hm with hm | hm
    · subst hm
      simp only
      split
      · exact ⟨le_refl 0, by norm_num⟩
      · rename_i hcond
        simp only [Bool.or_eq_true, decide_eq_true_eq, not_or] at hcond
        omega
    · exact ih (n + 1) m hm

/-- Finalization passes the options arrays through unchanged. -/
theorem finalizeAux_map_options (obj : LearnObj) :
    ∀ (qs : List RawQ) (n : Nat),
      ((finalizeAux obj n qs).map fun m => m.options) = qs.map fun q => q.options := by
  intro qs
  induction qs with
  | nil => intro n; rfl
  | cons q rest ih => intro n; simp [finalizeAux, ih (n + 1)]

/-- An out-of-range correct answer is replaced by 0 at the same position. -/
theorem finalizeAux_out_of_range (obj : LearnObj) :
    ∀ (qs : List RawQ) (n i : Nat) (q : RawQ), qs[i]? = some q →
      (q.correctAnswer < 0 ∨ q.correctAnswer > 3) →
      ((finalizeAux obj n qs)[i]?).map (fun m => m.correctAnswer) = some 0 := by
  intro qs
  induction qs with
  | nil => intro n i q hq; simp at hq
  | cons q0 rest ih =>
    intro n i q hq hrange
    cases i with
    | zero =>
      have hq0 : q0 = q := by simpa using hq
      subst hq0
      have hb : (q0.correctAnswer < 0 || q0.correctAnswer > 3) = true := by
        simp only [Bool.or_eq_true, decide_eq_true_eq]
        exact hrange
      simp [finalizeAux, hb]
    | succ j =>
      simp only [List.getElem?_cons_succ] at hq
      simpa [finalizeAux] using ih (n + 1) j q hq hrange

/-- C7 counterexample: finalization does not correct a malformed option
count; a three-option question keeps its three options after
finalization even though its out-of-range correct answer is clamped. -/
theorem finalize_options_count_counterexample :
    ((finalizeQuestions [wBadRawQ] wObj1).map fun m => m.options.length) = [3] ∧
    ¬ (∀ m ∈ finalizeQuestions [wBadRawQ] wObj1, m.options.length = 4) ∧
    ((finalizeQuestions [wBadRawQ] wObj1).map fun m => m.correctAnswer) = [0] := by
  refine ⟨rfl, ?_, rfl⟩
  intro h
  have := h { id := "obj-1-q1", objectiveId := "obj-1", question := "Broken?",
              options := ["x", "y", "z"], correctAnswer := 0, hint := "h",
              explanation := "e" } (by decide)
  simp at this

/-- C7 amended: after finalization every correct answer lies in the range
0 to 3 with out-of-range values corrected to 0 in place rather than
failing the step; the options arrays pass through finalization unchanged,
so exactly four options holds afterwards precisely when the generator
already returned four-option questions (the schema-enforced case), and a
malformed option count is not corrected. -/
theorem finalize_clamps_answer_keeps_options (qs : List RawQ) (obj : LearnObj) :
    (∀ m ∈ finalizeQuestions qs obj, 0 ≤ m.correctAnswer ∧ m.correctAnswer ≤ 3) ∧
    (((finalizeQuestions qs obj).map fun m => m.options) = qs.map fun q => q.options) ∧
    ((∀ q ∈ qs, q.options.length = 4) → ∀ m ∈ finalizeQuestions qs obj, m.options.length = 4) ∧
    (∀ (i : Nat) (q : RawQ), qs[i]? = some q → (q.correctAnswer < 0 ∨ q.correctAnswer > 3) →
      ((finalizeQuestions qs obj)[i]?).map (fun m => m.correctAnswer) = some 0) := by
  refine ⟨finalizeAux_correctAnswer_range obj qs 0, finalizeAux_map_options obj qs 0, ?_, ?_⟩
  · intro hall m hm
    have hmap : ((finalizeQuestions qs obj).map fun m => m.options) = qs.map fun q => q.options :=
      finalizeAux_map_options obj qs 0
    have : m.options ∈ (finalizeQuestions qs obj).map fun m => m.options :=
      List.mem_map_of_mem _ hm
    rw [hmap] at this
    rcases List.mem_map.mp this with ⟨q, hq, hqe⟩
    rw [← hqe]
    exact hall q hq
  · exact fun i q hq hr => finalizeAux_out_of_range obj qs 0 i q hq hr

/-- Witness for the amended C7 theorem: a four-option batch stays
four-option and an out-of-range answer lands at 0. -/
theorem finalize_clamps_answer_keeps_options_witness :
    (∀ m ∈ finalizeQuestions [wRawQ "q1"] wObj1, m.options.length = 4) ∧
    ((finalizeQuestions [wBadRawQ] wObj1)[0]?).map (fun m => m.correctAnswer) = some 0 :=
  ⟨(finalize_clamps_answer_keeps_options [wRawQ "q1"] wObj1).2.2.1 (by decide),
   (finalize_clamps_answer_keeps_options [wBadRawQ] wObj1).2.2.2 0 wBadRawQ rfl
     (Or.inr (by decide))⟩

/-- Structural facts about the critique-and-refine loop: call counts are
bounded by the fuel, refinements never outnumber critiques, the
non-question field is preserved, and the final questions are either the
initial ones or a refinement output taken wholesale. -/
theorem reflectLoop_spec (threshold : Int) (critiqueAt : Nat → Critique)
    (refineAt : Nat → RefinedBatch) :
    ∀ (fuel : Nat) (cur : RawMCQBatch) (done : Nat) (lastC : Option Critique)
      (lastS : Option String),
      (reflectLoop threshold critiqueAt refineAt fuel cur done lastC lastS).critiqueCallCount
          ≤ fuel ∧
      (reflectLoop threshold critiqueAt refineAt fuel cur done lastC lastS).refineCallCount
          ≤ fuel ∧
      (reflectLoop threshold critiqueAt refineAt fuel cur done lastC lastS).refineCallCount
          ≤ (reflectLoop threshold critiqueAt refineAt fuel cur done lastC lastS).critiqueCallCount ∧
      (reflectLoop threshold critiqueAt refineAt fuel cur done lastC lastS).output.objectiveId
          = cur.objectiveId ∧
      ((reflectLoop threshold critiqueAt refineAt fuel cur done lastC lastS).refineCallCount = 0 →
        (reflectLoop threshold critiqueAt refineAt fuel cur done lastC lastS).output = cur) ∧
      ((reflectLoop threshold critiqueAt refineAt fuel cur done lastC lastS).refineCallCount ≠ 0 →
        ∃ j, (reflectLoop threshold critiqueAt refineAt fuel cur done lastC lastS).output.questions
          = (refineAt j).questions) := by
  intro fuel
  induction fuel with
  | zero =>
    intro cur done lastC lastS
    refine ⟨le_refl 0, le_refl 0, le_refl 0, rfl, fun _ => rfl, fun h => absurd rfl h⟩
  | succ fuel ih =>
    intro cur done lastC lastS
    simp only [reflectLoop]
    split
    · rename_i hneeds
      obtain ⟨hc, hr, hrc, hid, hzero, hnz⟩ :=
        ih { cur with questions := (refineAt done).questions } (done + 1)
          (some (critiqueAt done)) (some (refineAt done).refinementSummary)
      refine ⟨?_, ?_, ?_, ?_, ?_, ?_⟩
      · dsimp only; omega
      · dsimp only; omega
      · dsimp only; omega
      · dsimp only; exact hid
      · dsimp only; omega
      · dsimp only
        intro _
        rcases Nat.eq_zero_or_pos (reflectLoop threshold critiqueAt refineAt fuel
            { cur with questions := (refineAt done).questions } (done + 1)
            (some (critiqueAt done)) (some (refineAt done).refinementSummary)).refineCallCount with
          hz | hp
        · exact ⟨done, by rw [hzero hz]⟩
        · exact hnz (by omega)
    · refine ⟨?_, ?_, ?_, rfl, fun _ => rfl, fun h => absurd rfl h⟩
      · dsimp only; omega
      · dsimp only; omega
      · dsimp only; omega

/-- C6 counterexample: with the default options, a critique demanding
refinement and a refinement model returning two questions, the reflection
gate returns an output whose question count differs from the
pre-refinement generator output. -/
theorem reflection_question_count_counterexample :
    (withReflection defaultReflectionOptions wGenBatch wCritiqueAt wRefineAt).output.questions.length
      = 2 ∧
    wGenBatch.questions.length = 3 ∧
    (withReflection defaultReflectionOptions wGenBatch wCritiqueAt wRefineAt).output.questions.length
      ≠ wGenBatch.questions.length := by
  refine ⟨rfl, rfl, by decide⟩

/-- C6 amended: for every generator output and every critique outcome,
withReflection performs at most maxIterations critique calls and at most
maxIterations refinement calls before returning; the batch field outside
the questions is preserved, and the returned questions are the generator
output when no refinement happened, and otherwise some refinement call's
questions taken wholesale — whose count, bounded by the refinement schema
to 2 to 5, need not equal the pre-refinement question count. -/
theorem reflection_bounded_calls_and_output (opts : ReflectionOptions) (gen : RawMCQBatch)
    (critiqueAt : Nat → Critique) (refineAt : Nat → RefinedBatch) :
    (withReflection opts gen critiqueAt refineAt).critiqueCallCount ≤ opts.maxIterations ∧
    (withReflection opts gen critiqueAt refineAt).refineCallCount ≤ opts.maxIterations ∧
    (withReflection opts gen critiqueAt refineAt).refineCallCount
      ≤ (withReflection opts gen critiqueAt refineAt).critiqueCallCount ∧
    (withReflection opts gen critiqueAt refineAt).output.objectiveId = gen.objectiveId ∧
    ((withReflection opts gen critiqueAt refineAt).refineCallCount = 0 →
      (withReflection opts gen critiqueAt refineAt).output = gen) ∧
    ((withReflection opts gen critiqueAt refineAt).refineCallCount ≠ 0 →
      ∃ j, (withReflection opts gen critiqueAt refineAt).output.questions
        = (refineAt j).questions) := by
  unfold withReflection
  split
  · exact ⟨Nat.zero_le _, Nat.zero_le _, le_refl 0, rfl, fun _ => rfl, fun h => absurd rfl h⟩
  · obtain ⟨hc, hr, hrc, hid, hzero, hnz⟩ :=
      reflectLoop_spec opts.critiqueThreshold critiqueAt refineAt opts.maxIterations gen 0 none none
    exact ⟨hc, hr, hrc, hid, hzero, hnz⟩

/-- Witness for the amended C6 theorem: at the concrete counterexample
inputs the returned questions are exactly a refinement output. -/
theorem reflection_bounded_calls_and_output_witness :
    ∃ j, (withReflection defaultReflectionOptions wGenBatch wCritiqueAt wRefineAt).output.questions
      = (wRefineAt j).questions :=
  (reflection_bounded_calls_and_output defaultReflectionOptions wGenBatch
    wCritiqueAt wRefineAt).2.2.2.2.2 (by decide)

/-- C4: a prefetch entry recorded for objective index k is consumed only
when the index currently needed equals k exactly: on a mismatch
resolvePrefetch ignores the entry and leaves the cache untouched; a
successful resolution implies the recorded index, the needed index, and
the returned index coincide and the entry is deleted; and the quiz
generator appends its freshly generated questions rather than the
prefetched ones whenever the recorded prefetch index differs from the
current objective index. -/
theorem prefetch_consumed_only_on_exact_match :
    (∀ (cache : PCMap) (key : String) (e : PrefetchEntry) (needed : Nat),
      pcGet cache key = some e → e.objectiveIdx ≠ needed →
      resolvePrefetch cache key needed = (none, cache)) ∧
    (∀ (cache : PCMap) (key : String) (needed : Nat) (qs : List StMCQ) (i : Nat) (cache' : PCMap),
      resolvePrefetch cache key needed = (some (qs, i), cache') →
      ∃ e, pcGet cache key = some e ∧ e.objectiveIdx = needed ∧ i = needed ∧
        e.result = .ok qs ∧ cache' = pcDelete cache key) ∧
    (∀ (st : LearnState) (qs : List StMCQ) (next : Except String (List StMCQ)) (cache : PCMap)
      (obj : LearnObj),
      st.learningObjectives[st.currentObjectiveIdx]? = some obj →
      st.prefetchObjectiveIdx ≠ (st.currentObjectiveIdx : Int) →
      (quizGeneratorNode st (.ok qs) next cache).1.mcqs = some (st.mcqs ++ qs)) := by
  refine ⟨?_, ?_, ?_⟩
  · intro cache key e needed he hne
    unfold resolvePrefetch
    rw [he]
    simp [hne]
  · intro cache key needed qs i cache' h
    unfold resolvePrefetch at h
    split at h
    · exact absurd (congrArg Prod.fst h) (by simp)
    · rename_i e hc
      split at h
      · exact absurd (congrArg Prod.fst h) (by simp)
      · rename_i hidx
        push_neg at hidx
        split at h
        · rename_i mcqs hres
          have h1 := congrArg Prod.fst h
          have h2 := congrArg Prod.snd h
          simp only at h1 h2
          injection h1 with h1'
          injection h1' with hqs hi
          exact ⟨e, hc, hidx, hi.symm, by rw [hres, hqs], h2.symm⟩
        · exact absurd (congrArg Prod.fst h) (by simp)
  · intro st qs next cache obj hobj hne
    have hlt : st.currentObjectiveIdx < st.learningObjectives.length := by
      rcases List.getElem?_eq_some.mp hobj with ⟨h, _⟩
      exact h
    have hlen : ¬ st.learningObjectives.length = 0 := by omega
    have hbeq : (st.prefetchObjectiveIdx == (st.currentObjectiveIdx : Int)) = false := by
      simpa using hne
    unfold quizGeneratorNode
    rw [if_neg hlen, hobj]
    simp only [hbeq, Bool.false_and]
    rfl

/-- Witness for C4: a cached entry for index 1 is ignored when index 2 is
needed, and a generator run with a stale prefetch index appends the
generated questions. -/
theorem prefetch_consumed_only_on_exact_match_witness :
    resolvePrefetch (pcSet pcEmpty "obj-1" wEntryA) "obj-1" 2 =
      (none, pcSet pcEmpty "obj-1" wEntryA) ∧
    (quizGeneratorNode wState1 (.ok [wMcq1]) (.ok []) pcEmpty).1.mcqs =
      some (wState1.mcqs ++ [wMcq1]) :=
  ⟨prefetch_consumed_only_on_exact_match.1 (pcSet pcEmpty "obj-1" wEntryA) "obj-1" wEntryA 2
      rfl (by decide),
   prefetch_consumed_only_on_exact_match.2.2 wState1 [wMcq1] (.ok []) pcEmpty wObj1 rfl
      (by decide)⟩

/-- C2: every answer-submission suspension of the feedback node carries
the current question's correct answer index and its explanation text
verbatim, alongside the question, options, progressive hint, and attempt
count. -/
theorem suspension_payload_contains_answer
    (st : LearnState) (cache : PCMap) (p : AnswerPayload) (cache' : PCMap)
    (h : feedbackNode st cache none = (.suspend p, cache')) :
    ∃ mcq, st.mcqs[st.currentMcqIdx]? = some mcq ∧
      p.correctAnswer = mcq.correctAnswer ∧
      p.explanation = mcq.explanation ∧
      p.questionId = mcq.id ∧
      p.question = mcq.question ∧
      p.options = mcq.options ∧
      p.attemptCount = (st.attemptCounts mcq.id).getD 0 + 1 ∧
      p.hint = getProgressiveHint mcq.hint ((st.attemptCounts mcq.id).getD 0 + 1)
        (some { question := mcq.question, options := mcq.options,
                objectiveTitle :=
                  (st.learningObjectives[st.currentObjectiveIdx]?).map LearnObj.title }) := by
  unfold feedbackNode at h
  split at h
  · exact FeedbackResult.noConfusion (congrArg Prod.fst h)
  · split at h
    · split at h
      · exact FeedbackResult.noConfusion (congrArg Prod.fst h)
      · exact FeedbackResult.noConfusion (congrArg Prod.fst h)
    · rename_i mcq hmcq
      split at h
      · exact FeedbackResult.noConfusion (congrArg Prod.fst h)
      · have hp : answerPayload st mcq = p :=
          FeedbackResult.suspend.inj (congrArg Prod.fst h)
        subst hp
        exact ⟨mcq, hmcq, rfl, rfl, rfl, rfl, rfl, rfl, rfl⟩

/-- Witness for C2 at a concrete suspending state. -/
theorem suspension_payload_contains_answer_witness :
    ∃ mcq, wState1.mcqs[wState1.currentMcqIdx]? = some mcq ∧
      (answerPayload wState1 wMcq1).correctAnswer = mcq.correctAnswer ∧
      (answerPayload wState1 wMcq1).explanation = mcq.explanation ∧
      (answerPayload wState1 wMcq1).questionId = mcq.id ∧
      (answerPayload wState1 wMcq1).question = mcq.question ∧
      (answerPayload wState1 wMcq1).options = mcq.options ∧
      (answerPayload wState1 wMcq1).attemptCount = (wState1.attemptCounts mcq.id).getD 0 + 1 ∧
      (answerPayload wState1 wMcq1).hint =
        getProgressiveHint mcq.hint ((wState1.attemptCounts mcq.id).getD 0 + 1)
          (some { question := mcq.question, options := mcq.options,
                  objectiveTitle :=
                    (wState1.learningObjectives[wState1.currentObjectiveIdx]?).map
                      LearnObj.title }) :=
  suspension_payload_contains_answer wState1 pcEmpty (answerPayload wState1 wMcq1) pcEmpty rfl

/-- C9: a numeric-string resume value is coerced to the corresponding
number before the comparison with the correct answer, so resuming with
the string form behaves identically to resuming with the number; a resume
value that does not coerce is treated as an ordinary invalid submission
taking the retry update, with no error recorded and no exception crossing
the step boundary; and the server-side stringification of a numeric
resume value leaves the behaviour unchanged whenever it parses back. -/
theorem resume_coercion_behavior :
    (∀ (st : LearnState) (cache : PCMap) (s : String) (n : Int), parseIntJs s = some n →
      feedbackNode st cache (some (.str s)) = feedbackNode st cache (some (.num n))) ∧
    (∀ (st : LearnState) (cache : PCMap) (s : String) (mcq : StMCQ),
      parseIntJs s = none →
      st.mcqs[st.currentMcqIdx]? = some mcq →
      existingAnswerCorrect st mcq = false →
      feedbackNode st cache (some (.str s)) = (.update (feedbackIncorrect st mcq), cache) ∧
      (feedbackIncorrect st mcq).error = none) ∧
    (∀ (st : LearnState) (cache : PCMap) (n : Int), parseIntJs (toString n) = some n →
      feedbackNode st cache (some (safeResumeValue (.num n))) =
        feedbackNode st cache (some (.num n))) := by
  have hstr : ∀ (st : LearnState) (cache : PCMap) (s : String) (n : Int), parseIntJs s = some n →
      feedbackNode st cache (some (.str s)) = feedbackNode st cache (some (.num n)) := by
    intro st cache s n hs
    unfold feedbackNode
    simp only [coerceResume, hs]
  refine ⟨hstr, ?_, fun st cache n h => hstr st cache (toString n) n h⟩
  intro st cache s mcq hs hmcq hna
  have hlt : st.currentMcqIdx < st.mcqs.length := by
    rcases List.getElem?_eq_some.mp hmcq with ⟨h, _⟩
    exact h
  have hlen : ¬ st.mcqs.length = 0 := by omega
  refine ⟨?_, rfl⟩
  unfold feedbackNode
  rw [if_neg hlen, hmcq]
  simp only [hna, Bool.false_eq_true, if_false, coerceResume, hs]

/-- Witness for C9: the string 2 behaves like the number 2 and a
non-numeric string takes the retry update. -/
theorem resume_coercion_behavior_witness :
    feedbackNode wState1 pcEmpty (some (.str "2")) =
      feedbackNode wState1 pcEmpty (some (.num 2)) ∧
    feedbackNode wState1 pcEmpty (some (.str "abc")) =
      (.update (feedbackIncorrect wState1 wMcq1), pcEmpty) :=
  ⟨resume_coercion_behavior.1 wState1 pcEmpty "2" 2 (by decide),
   (resume_coercion_behavior.2.1 wState1 pcEmpty "abc" wMcq1 (by decide) rfl (by decide)).1⟩

/-- Advancing past an already-answered question never writes the
userAnswers channel. -/
theorem feedbackAdvanceAnswered_userAnswers (st : LearnState) (cache : PCMap) :
    (feedbackAdvanceAnswered st cache).1.userAnswers = none := by
  unfold feedbackAdvanceAnswered
  split
  · split <;> rfl
  · rfl

/-- The correct-resume update always stores the submitted answer for the
current question id and increments the correct-answer counter, in each of
its branches. -/
theorem feedbackCorrect_fields (st : LearnState) (cache : PCMap) (mcq : StMCQ) (n : Int) :
    (feedbackCorrect st cache mcq n).1.userAnswers =
      some (fun k => if k = mcq.id then some n else st.userAnswers k) ∧
    (feedbackCorrect st cache mcq n).1.correctAnswers = some (st.correctAnswers + 1) := by
  unfold feedbackCorrect
  split
  · split <;> exact ⟨rfl, rfl⟩
  · exact ⟨rfl, rfl⟩

/-- Characterization of the userAnswers channel across every update the
feedback node can produce: it is either untouched, or set to the previous
map extended with the current question id mapped to its correct answer. -/
theorem feedbackNode_update_userAnswers (st : LearnState) (cache : PCMap) (r : Option ResumeVal)
    (u : FeedbackUpdate) (cache' : PCMap)
    (h : feedbackNode st cache r = (.update u, cache')) :
    u.userAnswers = none ∨
    ∃ mcq, st.mcqs[st.currentMcqIdx]? = some mcq ∧
      u.userAnswers =
        some (fun k => if k = mcq.id then some mcq.correctAnswer else st.userAnswers k) := by
  unfold feedbackNode at h
  split at h
  · cases FeedbackResult.update.inj (congrArg Prod.fst h)
    left; rfl
  · split at h
    · split at h
      · cases FeedbackResult.update.inj (congrArg Prod.fst h)
        left; rfl
      · cases FeedbackResult.update.inj (congrArg Prod.fst h)
        left; rfl
    · rename_i mcq hmcq
      split at h
      · cases FeedbackResult.update.inj (congrArg Prod.fst h)
        left
        exact feedbackAdvanceAnswered_userAnswers st cache
      · split at h
        · exact FeedbackResult.noConfusion (congrArg Prod.fst h)
        · rename_i v
          split at h
          · rename_i n hn
            split at h
            · rename_i heq
              cases FeedbackResult.update.inj (congrArg Prod.fst h)
              right
              refine ⟨mcq, hmcq, ?_⟩
              rw [(feedbackCorrect_fields st cache mcq n).1, heq]
            · cases FeedbackResult.update.inj (congrArg Prod.fst h)
              left; rfl
          · cases FeedbackResult.update.inj (congrArg Prod.fst h)
            left; rfl

/-- C3: in every session state reachable through feedback steps from a
state with no stored answers, every entry of userAnswers equals the
correctAnswer of the question with that id, provided question ids are
unique; resuming the answer interrupt with an incorrect value leaves
userAnswers unchanged and increments the attempt count of exactly that
question id by one while leaving the correct-answer counter alone, and a
correct resume stores the answer under the question id and increments the
correct-answer counter by one. -/
theorem stored_answers_only_correct :
    (∀ st : LearnState, FeedbackReach st → UniqueIds st.mcqs → StoredAnswersCorrect st) ∧
    (∀ (st : LearnState) (cache : PCMap) (v : ResumeVal) (mcq : StMCQ),
      st.mcqs[st.currentMcqIdx]? = some mcq →
      existingAnswerCorrect st mcq = false →
      coerceResume v ≠ some mcq.correctAnswer →
      feedbackNode st cache (some v) = (.update (feedbackIncorrect st mcq), cache) ∧
      (applyFeedbackUpdate st (feedbackIncorrect st mcq)).userAnswers = st.userAnswers ∧
      (applyFeedbackUpdate st (feedbackIncorrect st mcq)).attemptCounts mcq.id
        = some ((st.attemptCounts mcq.id).getD 0 + 1) ∧
      (∀ k, k ≠ mcq.id →
        (applyFeedbackUpdate st (feedbackIncorrect st mcq)).attemptCounts k
          = st.attemptCounts k) ∧
      (applyFeedbackUpdate st (feedbackIncorrect st mcq)).correctAnswers = st.correctAnswers) ∧
    (∀ (st : LearnState) (cache : PCMap) (v : ResumeVal) (mcq : StMCQ),
      st.mcqs[st.currentMcqIdx]? = some mcq →
      existingAnswerCorrect st mcq = false →
      coerceResume v = some mcq.correctAnswer →
      feedbackNode st cache (some v) =
        (.update (feedbackCorrect st cache mcq mcq.correctAnswer).1,
         (feedbackCorrect st cache mcq mcq.correctAnswer).2) ∧
      (applyFeedbackUpdate st
          (feedbackCorrect st cache mcq mcq.correctAnswer).1).userAnswers mcq.id
        = some mcq.correctAnswer ∧
      (∀ k, k ≠ mcq.id →
        (applyFeedbackUpdate st
            (feedbackCorrect st cache mcq mcq.correctAnswer).1).userAnswers k
          = st.userAnswers k) ∧
      (applyFeedbackUpdate st
          (feedbackCorrect st cache mcq mcq.correctAnswer).1).correctAnswers
        = st.correctAnswers + 1) := by
  refine ⟨?_, ?_, ?_⟩
  · intro st hreach
    induction hreach with
    | init st0 h0 =>
      intro _ m _ v hv
      rw [h0 m.id] at hv
      cases hv
    | step st0 cache resume u cache' hreach hrun ih =>
      intro huniq
      have hinv : StoredAnswersCorrect st0 := ih huniq
      rcases feedbackNode_update_userAnswers st0 cache resume u cache' hrun with
        hnone | ⟨mcq, hmcq, hua⟩
      · intro m hm v hv
        have happ : (applyFeedbackUpdate st0 u).userAnswers = st0.userAnswers := by
          simp [applyFeedbackUpdate, hnone]
        rw [happ] at hv
        exact hinv m hm v hv
      · intro m hm v hv
        have happ : (applyFeedbackUpdate st0 u).userAnswers m.id =
            if m.id = mcq.id then some mcq.correctAnswer else st0.userAnswers m.id := by
          simp only [applyFeedbackUpdate, hua]
          by_cases hk : m.id = mcq.id
          · simp [hk]
          · simp only [hk, if_false]
            cases st0.userAnswers m.id <;> rfl
        rw [happ] at hv
        by_cases hk : m.id = mcq.id
        · rw [if_pos hk] at hv
          injection hv with hv'
          have hmem : mcq ∈ st0.mcqs := List.getElem?_mem hmcq
          rw [huniq m hm mcq hmem hk]
          exact hv'.symm
        · rw [if_neg hk] at hv
          exact hinv m hm v hv
  · intro st cache v mcq hmcq hna hwrong
    have hlt : st.currentMcqIdx < st.mcqs.length := by
      rcases List.getElem?_eq_some.mp hmcq with ⟨h, _⟩
      exact h
    have hlen : ¬ st.mcqs.length = 0 := by omega
    refine ⟨?_, rfl, ?_, ?_, rfl⟩
    · unfold feedbackNode
      rw [if_neg hlen, hmcq]
      simp only [hna, Bool.false_eq_true, if_false]
      cases hc : coerceResume v with
      | none => rfl
      | some n =>
        have hn : ¬ n = mcq.correctAnswer := by
          intro he
          exact hwrong (by rw [hc, he])
        simp only [hn, if_false]
    · simp [applyFeedbackUpdate, feedbackIncorrect]
    · intro k hk
      simp only [applyFeedbackUpdate, feedbackIncorrect]
      simp [hk]
  · intro st cache v mcq hmcq hna hc
    have hlt : st.currentMcqIdx < st.mcqs.length := by
      rcases List.getElem?_eq_some.mp hmcq with ⟨h, _⟩
      exact h
    have hlen : ¬ st.mcqs.length = 0 := by omega
    have hfields := feedbackCorrect_fields st cache mcq mcq.correctAnswer
    refine ⟨?_, ?_, ?_, ?_⟩
    · unfold feedbackNode
      rw [if_neg hlen, hmcq]
      simp only [hna, Bool.false_eq_true, if_false, hc]
      simp
    · simp only [applyFeedbackUpdate, hfields.1]
      simp
    · intro k hk
      simp only [applyFeedbackUpdate, hfields.1]
      simp only [hk, if_false]
      cases st.userAnswers k <;> rfl
    · simp [applyFeedbackUpdate, hfields.2]

/-- Witness for C3: from the concrete fresh session, a wrong resume leaves
the stored answers empty and sets the attempt count of the question to
one, a correct resume stores the correct answer, and the resulting
reachable state satisfies the stored-answers invariant. -/
theorem stored_answers_only_correct_witness :
    (applyFeedbackUpdate wState1 (feedbackIncorrect wState1 wMcq1)).userAnswers
      = wState1.userAnswers ∧
    (applyFeedbackUpdate wState1 (feedbackIncorrect wState1 wMcq1)).attemptCounts wMcq1.id
      = some 1 ∧
    (applyFeedbackUpdate wState1
        (feedbackCorrect wState1 pcEmpty wMcq1 wMcq1.correctAnswer).1).userAnswers wMcq1.id
      = some wMcq1.correctAnswer ∧
    StoredAnswersCorrect wState1 :=
  ⟨(stored_answers_only_correct.2.1 wState1 pcEmpty (.num 0) wMcq1 rfl rfl (by decide)).2.1,
   (stored_answers_only_correct.2.1 wState1 pcEmpty (.num 0) wMcq1 rfl rfl (by decide)).2.2.1,
   (stored_answers_only_correct.2.2 wState1 pcEmpty (.num 1) wMcq1 rfl rfl (by decide)).2.1,
   stored_answers_only_correct.1 wState1 (FeedbackReach.init wState1 fun _ => rfl)
     (by intro m hm m' hm' _; simp only [wState1] at hm hm'; simp at hm hm'; rw [hm, hm'])⟩

/-- Unfolding equation of the word counter on a cons cell. -/
theorem countWords_cons (c : Char) (cs : List Char) (b : Bool) :
    countWords (c :: cs) b =
      if jsIsSpace c then countWords cs false else (if b then 0 else 1) + countWords cs true :=
  rfl

/-- Word counter stepping over a whitespace character. -/
theorem countWords_cons_space (c : Char) (cs : List Char) (b : Bool) (hc : jsIsSpace c = true) :
    countWords (c :: cs) b = countWords cs false := by
  rw [countWords_cons, hc]
  simp

/-- Word counter stepping over a non-whitespace character. -/
theorem countWords_cons_nonspace (c : Char) (cs : List Char) (b : Bool)
    (hc : jsIsSpace c = false) :
    countWords (c :: cs) b = (if b then 0 else 1) + countWords cs true := by
  rw [countWords_cons, hc]
  simp

/-- Scanning a prefix can only find fewer words. -/
theorem countWords_append_le (x y : List Char) : ∀ b, countWords x b ≤ countWords (x ++ y) b := by
  induction x with
  | nil => intro b; exact Nat.zero_le _
  | cons c cs ih =>
    intro b
    rw [List.cons_append]
    cases hc : jsIsSpace c
    · rw [countWords_cons_nonspace c cs b hc, countWords_cons_nonspace c (cs ++ y) b hc]
      exact Nat.add_le_add_left (ih true) _
    · rw [countWords_cons_space c cs b hc, countWords_cons_space c (cs ++ y) b hc]
      exact ih false

/-- Dropping leading whitespace does not change the word count. -/
theorem countWords_dropWhile_space (s : List Char) :
    countWords (s.dropWhile jsIsSpace) false = countWords s false := by
  induction s with
  | nil => rfl
  | cons c cs ih =>
    cases hc : jsIsSpace c
    · simp [List.dropWhile, hc]
    · simp only [List.dropWhile, hc]
      rw [ih, countWords_cons_space c cs false hc]

/-- A whitespace-free tail contributes no further words to a scan already
inside a word. -/
theorem countWords_spacefree_true (w : List Char) (hw : ∀ c ∈ w, jsIsSpace c = false) :
    countWords w true = 0 := by
  induction w with
  | nil => rfl
  | cons c cs ih =>
    rw [countWords_cons_nonspace c cs true (hw c (List.mem_cons_self c cs))]
    simpa using ih fun c' h => hw c' (List.mem_cons_of_mem _ h)

/-- A whitespace-free string holds at most one word. -/
theorem countWords_spacefree_false (w : List Char) (hw : ∀ c ∈ w, jsIsSpace c = false) :
    countWords w false ≤ 1 := by
  cases w with
  | nil => exact Nat.zero_le 1
  | cons c cs =>
    rw [countWords_cons_nonspace c cs false (hw c (List.mem_cons_self c cs)),
      countWords_spacefree_true cs fun c' h => hw c' (List.mem_cons_of_mem _ h)]
    simp

/-- Appending a space and a rest after a whitespace-free word resumes the
scan on the rest. -/
theorem countWords_spacefree_append_true (cs rest : List Char)
    (h : ∀ c ∈ cs, jsIsSpace c = false) :
    countWords (cs ++ ' ' :: rest) true = countWords rest false := by
  induction cs with
  | nil =>
    rw [List.nil_append, countWords_cons_space ' ' rest true rfl]
  | cons c cs' ih =>
    rw [List.cons_append, countWords_cons_nonspace c _ true (h c (List.mem_cons_self c cs'))]
    simpa using ih fun c' hm => h c' (List.mem_cons_of_mem _ hm)

/-- One word and a space in front of a rest add at most one to the word
count of the rest. -/
theorem countWords_word_append (w rest : List Char) (hw : ∀ c ∈ w, jsIsSpace c = false) :
    countWords (w ++ ' ' :: rest) false ≤ 1 + countWords rest false := by
  cases w with
  | nil =>
    rw [List.nil_append, countWords_cons_space ' ' rest false rfl]
    omega
  | cons c cs =>
    rw [List.cons_append, countWords_cons_nonspace c _ false (hw c (List.mem_cons_self c cs)),
      countWords_spacefree_append_true cs rest fun c' h => hw c' (List.mem_cons_of_mem _ h)]
    simp

/-- Joining whitespace-free words with spaces yields at most one word per
list entry. -/
theorem countWords_joinSp_le (ws : List (List Char))
    (h : ∀ w ∈ ws, ∀ c ∈ w, jsIsSpace c = false) :
    countWords (joinSp ws) false ≤ ws.length := by
  induction ws with
  | nil => exact Nat.zero_le 0
  | cons w rest ih =>
    cases rest with
    | nil =>
      simpa [joinSp] using countWords_spacefree_false w (h w (List.mem_cons_self w []))
    | cons w2 rest2 =>
      have hjoin : joinSp (w :: w2 :: rest2) = w ++ ' ' :: joinSp (w2 :: rest2) := rfl
      rw [hjoin]
      calc countWords (w ++ ' ' :: joinSp (w2 :: rest2)) false
          ≤ 1 + countWords (joinSp (w2 :: rest2)) false :=
            countWords_word_append w _ (h w (List.mem_cons_self w _))
        _ ≤ 1 + (w2 :: rest2).length := by
            have := ih fun w' hw' c hc => h w' (List.mem_cons_of_mem _ hw') c hc
            omega
        _ = (w :: w2 :: rest2).length := by
            simp only [List.length_cons]
            omega

/-- The number of words produced by the splitter equals the scan count,
with a pending accumulator contributing one extra word. -/
theorem wordsAux_length (s : List Char) :
    ∀ acc, (wordsAux s acc).length =
      countWords s (!acc.isEmpty) + (if acc.isEmpty then 0 else 1) := by
  induction s with
  | nil =>
    intro acc
    by_cases h : acc.isEmpty <;> simp [wordsAux, countWords, h]
  | cons c cs ih =>
    intro acc
    cases hc : jsIsSpace c
    · have hstep : wordsAux (c :: cs) acc = wordsAux cs (c :: acc) := by
        simp [wordsAux, hc]
      rw [hstep, ih (c :: acc), countWords_cons_nonspace c cs _ hc]
      by_cases hacc : acc.isEmpty
      · simp [hacc]
        omega
      · simp [hacc]
    · by_cases hacc : acc.isEmpty
      · have hstep : wordsAux (c :: cs) acc = wordsAux cs [] := by
          simp [wordsAux, hc, hacc]
        rw [hstep, ih [], countWords_cons_space c cs _ hc]
        simp [hacc]
      · have hstep : wordsAux (c :: cs) acc = acc.reverse :: wordsAux cs [] := by
          simp [wordsAux, hc, hacc]
        rw [hstep, List.length_cons, ih [], countWords_cons_space c cs _ hc]
        simp [hacc]

/-- Every word produced by the splitter is whitespace-free, given a
whitespace-free accumulator. -/
theorem wordsAux_spacefree (s : List Char) :
    ∀ acc, (∀ c ∈ acc, jsIsSpace c = false) →
      ∀ w ∈ wordsAux s acc, ∀ c ∈ w, jsIsSpace c = false := by
  induction s with
  | nil =>
    intro acc hacc w hw
    by_cases h : acc.isEmpty
    · simp [wordsAux, h] at hw
    · simp only [wordsAux, h, if_false] at hw
      rcases List.mem_singleton.mp hw with rfl
      intro c hc
      exact hacc c (List.mem_reverse.mp hc)
  | cons c cs ih =>
    intro acc hacc w hw
    cases hc : jsIsSpace c
    · rw [show wordsAux (c :: cs) acc = wordsAux cs (c :: acc) by simp [wordsAux, hc]] at hw
      refine ih (c :: acc) ?_ w hw
      intro c' hm
      rcases List.mem_cons.mp hm with rfl | hm'
      · exact hc
      · exact hacc c' hm'
    · by_cases hacc' : acc.isEmpty
      · rw [show wordsAux (c :: cs) acc = wordsAux cs [] by simp [wordsAux, hc, hacc']] at hw
        exact ih [] (by simp) w hw
      · rw [show wordsAux (c :: cs) acc = acc.reverse :: wordsAux cs [] by
            simp [wordsAux, hc, hacc']] at hw
        rcases List.mem_cons.mp hw with rfl | hw'
        · intro c' hc'
          exact hacc c' (List.mem_reverse.mp hc')
        · exact ih [] (by simp) w hw'

/-- Trimming trailing whitespace can only reduce the word count. -/
theorem countWords_trimEnd_le (z : List Char) (b : Bool) :
    countWords (trimEnd z) b ≤ countWords z b := by
  have hz : z = trimEnd z ++ (z.reverse.takeWhile jsIsSpace).reverse := by
    unfold trimEnd
    conv_lhs => rw [← List.reverse_reverse z,
      ← List.takeWhile_append_dropWhile (p := jsIsSpace) (l := z.reverse)]
    rw [List.reverse_append]
  calc countWords (trimEnd z) b
      ≤ countWords (trimEnd z ++ (z.reverse.takeWhile jsIsSpace).reverse) b :=
        countWords_append_le _ _ b
    _ = countWords z b := by rw [← hz]

/-- Trimming never increases the word count. -/
theorem countWords_trimCL_le (y : List Char) : countWords (trimCL y) false ≤ countWords y false := by
  unfold trimCL
  calc countWords (trimEnd (y.dropWhile jsIsSpace)) false
      ≤ countWords (y.dropWhile jsIsSpace) false := countWords_trimEnd_le _ _
    _ = countWords y false := countWords_dropWhile_space y

/-- The clause-cut key phrase built from the first six words of a cleaned
question contains at most six words. -/
theorem keyPhrase_words_le (cleaned : List Char) :
    (wordsOf (trimCL ((joinSp ((wordsOf cleaned).take
        (min 6 (wordsOf cleaned).length))).takeWhile fun c => !isClauseCut c))).length ≤ 6 := by
  have hlen : ∀ x : List Char, (wordsOf x).length = countWords x false := by
    intro x
    have := wordsAux_length x []
    simpa [wordsOf] using this
  rw [hlen]
  have h1 : countWords (trimCL ((joinSp ((wordsOf cleaned).take
      (min 6 (wordsOf cleaned).length))).takeWhile fun c => !isClauseCut c)) false
      ≤ countWords ((joinSp ((wordsOf cleaned).take
        (min 6 (wordsOf cleaned).length))).takeWhile fun c => !isClauseCut c) false :=
    countWords_trimCL_le _
  have h2 : countWords ((joinSp ((wordsOf cleaned).take
      (min 6 (wordsOf cleaned).length))).takeWhile fun c => !isClauseCut c) false
      ≤ countWords (joinSp ((wordsOf cleaned).take (min 6 (wordsOf cleaned).length))) false := by
    conv_rhs => rw [← List.takeWhile_append_dropWhile (p := fun c => !isClauseCut c)
      (l := joinSp ((wordsOf cleaned).take (min 6 (wordsOf cleaned).length)))]
    exact countWords_append_le _ _ false
  have h3 : countWords (joinSp ((wordsOf cleaned).take (min 6 (wordsOf cleaned).length))) false
      ≤ ((wordsOf cleaned).take (min 6 (wordsOf cleaned).length)).length := by
    refine countWords_joinSp_le _ ?_
    intro w hw
    exact wordsAux_spacefree cleaned [] (by simp) w (List.take_subset _ _ hw)
  have h4 : ((wordsOf cleaned).take (min 6 (wordsOf cleaned).length)).length ≤ 6 := by
    rw [List.length_take]
    omega
  omega

/-- The extracted key phrase has at most six words, unless the clause cut
emptied it and the 50-character fallback of the cleaned question was
returned instead. -/
theorem extractKeyTerms_words_bound (q : List Char) :
    (wordsOf (extractKeyTermsCL q)).length ≤ 6 ∨
    extractKeyTermsCL q = (cleanQuestion q).take 50 := by
  have hmain := keyPhrase_words_le (cleanQuestion q)
  simp only [extractKeyTermsCL]
  split
  · right; rfl
  · left; exact hmain

/-- C8: the progressive hint is a pure function of the attempt count, the
question text, and the objective title: attempt one returns the authored
hint unchanged; attempt two returns the re-focus instruction built around
the key phrase of the question's first clause, which holds at most six
words split at punctuation unless the fallback fires; attempt three ties
the hint to a nonempty objective title and instructs eliminating
unrelated options; attempt four escalates around the key phrase; attempts
five and beyond are capped at the final-hint wording; and the hint never
depends on which option is the correct answer. -/
theorem progressive_hint_policy :
    (∀ (h : String) (a : Nat) (c : Option HintContext), a ≤ 1 → getProgressiveHint h a c = h) ∧
    (∀ (h q : String) (opts : List String) (t : Option String),
      getProgressiveHint h 2 (some ⟨q, opts, t⟩) =
        "Pay close attention to \"" ++ extractKeyTerms q ++
          "\" in the question. Consider what each option implies about this concept.") ∧
    (∀ (h q : String) (opts : List String) (t : String), t ≠ "" →
      getProgressiveHint h 3 (some ⟨q, opts, some t⟩) =
        "This question tests \"" ++ t ++
          "\". Try eliminating options that don\x27t directly relate to this learning objective.") ∧
    (∀ (h q : String) (opts : List String) (t : Option String),
      getProgressiveHint h 4 (some ⟨q, opts, t⟩) =
        "You\x27ve tried several times. Look carefully at the options - some may sound correct " ++
          "but don\x27t match what the question is specifically asking about \"" ++
          extractKeyTerms q ++ "\".") ∧
    (∀ (h : String) (a : Nat) (c : Option HintContext), 5 ≤ a →
      getProgressiveHint h a c = getProgressiveHint h 5 c) ∧
    (∀ (m : StMCQ) (a : Nat) (t : Option String) (ca : Int),
      getProgressiveHint ({ m with correctAnswer := ca }).hint a
          (some ⟨({ m with correctAnswer := ca }).question,
                 ({ m with correctAnswer := ca }).options, t⟩)
        = getProgressiveHint m.hint a (some ⟨m.question, m.options, t⟩)) ∧
    (∀ q : String, (wordsOf (extractKeyTermsCL q.data)).length ≤ 6 ∨
      extractKeyTermsCL q.data = (cleanQuestion q.data).take 50) := by
  refine ⟨?_, ?_, ?_, ?_, ?_, ?_, ?_⟩
  · intro h a c ha
    simp [getProgressiveHint, ha]
  · intro h q opts t
    rfl
  · intro h q opts t ht
    simp [getProgressiveHint, truthyTitle, ht]
  · intro h q opts t
    rfl
  · intro h a c ha
    have h1 : ¬ a ≤ 1 := by omega
    have h2 : ¬ a = 2 := by omega
    have h3 : ¬ a = 3 := by omega
    have h4 : ¬ a = 4 := by omega
    simp [getProgressiveHint, h1, h2, h3, h4]
  · intro m a t ca
    rfl
  · exact fun q => extractKeyTerms_words_bound q.data

/-- Witness for C8: attempt one keeps the authored hint, and attempt seven
equals the capped attempt-five final hint. -/
theorem progressive_hint_policy_witness :
    getProgressiveHint "base" 1 (some ⟨"What is recursion?", ["a"], some "T"⟩) = "base" ∧
    getProgressiveHint "base" 7 (some ⟨"What is recursion?", ["a"], none⟩) =
      getProgressiveHint "base" 5 (some ⟨"What is recursion?", ["a"], none⟩) ∧
    getProgressiveHint "base" 3 (some ⟨"What is recursion?", ["a"], some "Recursion basics"⟩) =
      "This question tests \"Recursion basics\"" ++
        ". Try eliminating options that don\x27t directly relate to this learning objective." :=
  ⟨progressive_hint_policy.1 "base" 1 (some ⟨"What is recursion?", ["a"], some "T"⟩) (by decide),
   progressive_hint_policy.2.2.2.2.1 "base" 7 (some ⟨"What is recursion?", ["a"], none⟩)
     (by decide),
   (progressive_hint_policy.2.2.1 "base" "What is recursion?" ["a"] "Recursion basics"
     (by decide)).trans (by decide)⟩

end StudyAgent
